import Mathlib

/-!
Shallow embedding of pysph/sph/wc/kernel_correction.py.

The module defines four SPH equation classes operating on per-particle
fields:
  - KernelCorrection: accumulates the zeroth-order kernel sum cwij.
  - GradientCorrectionPreStep: assembles the 3x3 (flattened, row-major)
    moment matrix m_mat per destination particle.
  - GradientCorrection: per interacting pair, solves the dim x dim leading
    system of m_mat against the raw gradient DWIJ and accepts or rejects
    the corrected gradient by a relative-change tolerance.
  - MixedKernelCorrectionPreStep: a two-pass variant that first computes a
    normalizing denominator and a bias term, then assembles the moment
    matrix from the debiased gradient.

Real ("double") arithmetic is idealized as exact arithmetic over ℝ.  Arrays
indexed by integers are modelled as total functions ℕ → ℝ; the slice of
d_m_mat belonging to the single destination particle under consideration is
the index range [0, 9).  Imperative in-place writes become Function.update
chains folded in program order.  The external kernel evaluator (KERNEL) and
the external linear solver (gj_solve, defined in density_correction.py,
outside this module) are abstract parameters.

A second, Option-valued evaluation of the divisions is provided to settle
the no-division-by-zero safety claim: checkedDiv returns none exactly when
the denominator is zero, so an evaluation returning some means no division
by zero was encountered on that input.
-/

/-- A particle's fields as read by the equations: position, smoothing
length, mass, density. -/
structure Particle where
  x : ℝ
  y : ℝ
  z : ℝ
  h : ℝ
  m : ℝ
  rho : ℝ

/-- The external kernel evaluator collaborator: `kernel xij r h` is the
kernel value W, `gradient xij r h` the gradient vector (written into `dwij`
in the source). -/
structure SPHKernel where
  kernel : (ℕ → ℝ) → ℝ → ℝ → ℝ
  gradient : (ℕ → ℝ) → ℝ → ℝ → (ℕ → ℝ)

/-- Displacement xij = x_a - x_b as the length-3 array written by
`xij[0] = x - s_x[s_idx]` etc.; indices past 2 are never written nor read
and are modelled as 0. -/
noncomputable def pairXij (d s : Particle) : ℕ → ℝ := fun i =>
  if i = 0 then d.x - s.x
  else if i = 1 then d.y - s.y
  else if i = 2 then d.z - s.z
  else 0

/-- Pair smoothing length `hij = (h + s_h[s_idx]) * 0.5`. -/
noncomputable def pairHij (d s : Particle) : ℝ := (d.h + s.h) * 0.5

/-- Euclidean norm of a length-3 array, as computed by
`sqrt(v[0]*v[0] + v[1]*v[1] + v[2]*v[2])`. -/
noncomputable def norm3 (v : ℕ → ℝ) : ℝ :=
  Real.sqrt (v 0 * v 0 + v 1 * v 1 + v 2 * v 2)

/-- Pair distance `r = sqrt(xij[0]**2 + xij[1]**2 + xij[2]**2)`. -/
noncomputable def pairR (d s : Particle) : ℝ := norm3 (pairXij d s)

/-- Neighbor volume proxy `V = s_m[s_idx] / s_rho[s_idx]`. -/
noncomputable def particleVolume (s : Particle) : ℝ := s.m / s.rho

/-- KernelCorrection.initialize: `d_cwij[d_idx] = 0.0`. -/
noncomputable def KernelCorrection_init : ℝ := 0.0

/-- KernelCorrection.loop: `d_cwij[d_idx] += s_m[s_idx] * WIJ / s_rho[s_idx]`. -/
noncomputable def KernelCorrection_loop (cwij : ℝ) (s : Particle) (WIJ : ℝ) : ℝ :=
  cwij + s.m * WIJ / s.rho

/-- The framework runs initialize once and then loop over every neighbor of
the destination particle, with WIJ supplied by the kernel evaluator at the
pair displacement, distance and pair smoothing length. -/
noncomputable def KernelCorrection_run (K : SPHKernel) (d : Particle)
    (nbrs : List Particle) : ℝ :=
  nbrs.foldl
    (fun c s => KernelCorrection_loop c s (K.kernel (pairXij d s) (pairR d s) (pairHij d s)))
    KernelCorrection_init

/-- GradientCorrectionPreStep.initialize and
MixedKernelCorrectionPreStep.initialize (textually identical):
`for i in range(9): d_m_mat[9 * d_idx + i] = 0.0`, on the destination
particle's 9-entry slice. -/
noncomputable def preStep_init (mm : ℕ → ℝ) : ℕ → ℝ :=
  (List.range 9).foldl (fun m i => Function.update m i 0.0) mm

/-- The inner double loop shared by both assemblers:
`for i in range(n): for j in range(n): d_m_mat[9*d_idx + 3*i + j] += c * xij[i] * xij[j] / r`
with `c` the hoisted factor `dw * V`. -/
noncomputable def mmAccum (dim : ℕ) (c : ℝ) (xij : ℕ → ℝ) (r : ℝ) (mm : ℕ → ℝ) : ℕ → ℝ :=
  (List.range dim).foldl (fun mm1 i =>
    (List.range dim).foldl (fun mm2 j =>
      Function.update mm2 (3 * i + j) (mm2 (3 * i + j) + c * xij i * xij j / r)) mm1) mm

/-- One neighbor iteration of GradientCorrectionPreStep.loop_all: compute
xij, hij, r, the kernel gradient dwij, its norm dw and the volume V, then
accumulate into m_mat only when `r >= 1.0e-12`. -/
noncomputable def GradientCorrectionPreStep_body (dim : ℕ) (KERNEL : SPHKernel)
    (d s : Particle) (mm : ℕ → ℝ) : ℕ → ℝ :=
  let xij := pairXij d s
  let hij := pairHij d s
  let r := pairR d s
  let dwij := KERNEL.gradient xij r hij
  let dw := norm3 dwij
  let V := particleVolume s
  if 1.0e-12 ≤ r then mmAccum dim (dw * V) xij r mm else mm

/-- GradientCorrectionPreStep.loop_all: the `for k in range(N_NBRS)` loop,
with NBRS resolved to the list of neighbor particles. -/
noncomputable def GradientCorrectionPreStep_loop_all (dim : ℕ) (KERNEL : SPHKernel)
    (d : Particle) (nbrs : List Particle) (mm : ℕ → ℝ) : ℕ → ℝ :=
  nbrs.foldl (fun m s => GradientCorrectionPreStep_body dim KERNEL d s m) mm

/-- The per-neighbor, per-entry contribution of one loop_all iteration, in
closed form: nonzero only under the distance guard and only on the leading
dim x dim block. -/
noncomputable def gcContrib (dim : ℕ) (KERNEL : SPHKernel) (d s : Particle) (p : ℕ) : ℝ :=
  if 1.0e-12 ≤ pairR d s ∧ p < 9 ∧ p / 3 < dim ∧ p % 3 < dim then
    norm3 (KERNEL.gradient (pairXij d s) (pairR d s) (pairHij d s)) * particleVolume s *
      pairXij d s (p / 3) * pairXij d s (p % 3) / pairR d s
  else 0

/-- GradientCorrection.loop's copy of the stored matrix into the local
`temp`: `for i in range(n): for j in range(n): temp[n*i+j] = d_m_mat[9*d_idx+3*i+j]`.
The local is declared uninitialized; unwritten entries are modelled as 0. -/
noncomputable def GradientCorrection_temp (dim : ℕ) (m_mat : ℕ → ℝ) : ℕ → ℝ :=
  (List.range dim).foldl (fun t i =>
    (List.range dim).foldl (fun t2 j =>
      Function.update t2 (dim * i + j) (m_mat (3 * i + j))) t) (fun _ => 0)

/-- GradientCorrection.loop: copy the leading dim x dim block into temp,
call the external solver gj_solve on (temp, DWIJ, n) to obtain res, fold
the relative change over the first n components, and overwrite DWIJ with
res only when the change is within tol.  Returns the (d_m_mat slice, DWIJ)
pair after the call; the solver is an abstract collaborator parameter. -/
noncomputable def GradientCorrection_loop (dim : ℕ) (tol : ℝ)
    (gj_solve : (ℕ → ℝ) → (ℕ → ℝ) → ℕ → (ℕ → ℝ))
    (m_mat DWIJ : ℕ → ℝ) (HIJ : ℝ) : (ℕ → ℝ) × (ℕ → ℝ) :=
  let n := dim
  let eps := 1.0e-4 * HIJ
  let temp := GradientCorrection_temp n m_mat
  let res := gj_solve temp DWIJ n
  let change := (List.range n).foldl
    (fun ch i => ch + |DWIJ i - res i| / (|DWIJ i| + eps)) 0.0
  if change ≤ tol then
    (m_mat, (List.range n).foldl (fun D i => Function.update D i (res i)) DWIJ)
  else
    (m_mat, DWIJ)

/-- Modelled from the spec's words, for comparison with the code's change
accumulation: Delta = sum over i in [0, dim) of
|DWIJ[i] - x[i]| / (|DWIJ[i]| + 1e-4 * HIJ). -/
noncomputable def deltaSpec (dim : ℕ) (DWIJ res : ℕ → ℝ) (HIJ : ℝ) : ℝ :=
  ((List.range dim).map (fun i => |DWIJ i - res i| / (|DWIJ i| + 1.0e-4 * HIJ))).sum

/-- One iteration of the first pass of MixedKernelCorrectionPreStep.loop_all,
on the accumulator (den, numerator): `den += V * wij` and
`numerator[i] += V * dwij[i]` for i below dim (numerator entries at or past
dim were zero-initialized and stay untouched). -/
noncomputable def mixedPass1_step (dim : ℕ) (K : SPHKernel) (d : Particle)
    (acc : ℝ × (ℕ → ℝ)) (s : Particle) : ℝ × (ℕ → ℝ) :=
  let xij := pairXij d s
  let V := particleVolume s
  let rij := pairR d s
  let hij := pairHij d s
  let dwij := K.gradient xij rij hij
  let wij := K.kernel xij rij hij
  (acc.1 + V * wij, fun i => if i < dim then acc.2 i + V * dwij i else acc.2 i)

/-- The first pass of MixedKernelCorrectionPreStep.loop_all over the
neighbor list, starting from `den = 0.0` and a zeroed numerator. -/
noncomputable def mixedPass1 (dim : ℕ) (K : SPHKernel) (d : Particle)
    (nbrs : List Particle) : ℝ × (ℕ → ℝ) :=
  nbrs.foldl (mixedPass1_step dim K d) (0.0, fun _ => 0.0)

/-- The denominator of the mixed correction as the spec states it:
den = sum over neighbors b of V_b * W_ab. -/
noncomputable def mixedDen (K : SPHKernel) (d : Particle) (nbrs : List Particle) : ℝ :=
  (nbrs.map (fun s =>
    particleVolume s * K.kernel (pairXij d s) (pairR d s) (pairHij d s))).sum

/-- The gradient bias accumulator as the spec states it:
numerator[i] = sum over neighbors b of V_b * (grad W_ab)[i]. -/
noncomputable def mixedNumerator (K : SPHKernel) (d : Particle) (nbrs : List Particle)
    (i : ℕ) : ℝ :=
  (nbrs.map (fun s =>
    particleVolume s * K.gradient (pairXij d s) (pairR d s) (pairHij d s) i)).sum

/-- One iteration of the second pass of MixedKernelCorrectionPreStep.loop_all:
recompute xij, hij, r and dwij, debias into
`dwij1[i] = (dwij[i] - numerator[i] / den) / den` for i below dim (entries
at or past dim stay at their zero initialization), take dw = |dwij1| and
accumulate the moment matrix under the same `r >= 1.0e-12` guard as
GradientCorrectionPreStep. -/
noncomputable def mixedPass2_body (dim : ℕ) (K : SPHKernel) (d : Particle) (den : ℝ)
    (numerator : ℕ → ℝ) (s : Particle) (mm : ℕ → ℝ) : ℕ → ℝ :=
  let xij := pairXij d s
  let hij := pairHij d s
  let r := pairR d s
  let dwij := K.gradient xij r hij
  let dwij1 : ℕ → ℝ := fun i => if i < dim then (dwij i - numerator i / den) / den else 0
  let dw := norm3 dwij1
  let V := particleVolume s
  if 1.0e-12 ≤ r then mmAccum dim (dw * V) xij r mm else mm

/-- MixedKernelCorrectionPreStep.loop_all: pass 1 accumulates (den,
numerator) over the neighbor list and stores `d_cwij[d_idx] = den`; pass 2
runs over the same list accumulating the moment matrix from the debiased
gradient.  Returns the (d_m_mat slice, d_cwij) pair. -/
noncomputable def MixedKernelCorrectionPreStep_loop_all (dim : ℕ) (K : SPHKernel)
    (d : Particle) (nbrs : List Particle) (mm : ℕ → ℝ) : (ℕ → ℝ) × ℝ :=
  let p1 := mixedPass1 dim K d nbrs
  let mm2 := nbrs.foldl (fun m s => mixedPass2_body dim K d p1.1 p1.2 s m) mm
  (mm2, p1.1)

/-- The kernel evaluator whose gradient is the debiased gradient of K:
(grad W)[i] replaced by ((grad W)[i] - numerator[i] / den) / den on the
first dim components and 0 past them.  Feeding it to the plain
Moment-Matrix Assembler reproduces the mixed assembler's second pass. -/
noncomputable def debiasedKernel (dim : ℕ) (K : SPHKernel) (den : ℝ)
    (numerator : ℕ → ℝ) : SPHKernel where
  kernel := K.kernel
  gradient := fun xij r h => fun i =>
    if i < dim then (K.gradient xij r h i - numerator i / den) / den else 0

/-- Division that records a zero denominator instead of totalizing: the
checked evaluations below return none exactly when the source would divide
by zero at that point. -/
noncomputable def checkedDiv (a b : ℝ) : Option ℝ :=
  if b = 0 then none else some (a / b)

/-- Checked KernelCorrection: the only division is `s_m * WIJ / s_rho`,
unguarded in the source. -/
noncomputable def KernelCorrection_run_checked (K : SPHKernel) (d : Particle)
    (nbrs : List Particle) : Option ℝ :=
  nbrs.foldlM
    (fun c s =>
      (checkedDiv (s.m * K.kernel (pairXij d s) (pairR d s) (pairHij d s)) s.rho).map
        (fun t => c + t))
    KernelCorrection_init

/-- Checked first pass of the mixed assembler: the only division is the
unguarded volume `V = s_m / s_rho`. -/
noncomputable def mixedPass1_checked (dim : ℕ) (K : SPHKernel) (d : Particle)
    (nbrs : List Particle) : Option (ℝ × (ℕ → ℝ)) :=
  nbrs.foldlM
    (fun (acc : ℝ × (ℕ → ℝ)) s =>
      (checkedDiv s.m s.rho).map (fun V =>
        (acc.1 + V * K.kernel (pairXij d s) (pairR d s) (pairHij d s),
         fun i => if i < dim then
           acc.2 i + V * K.gradient (pairXij d s) (pairR d s) (pairHij d s) i
         else acc.2 i)))
    (0.0, fun _ => 0.0)

/-- Checked second-pass iteration of the mixed assembler.  In source order:
the debias loop divides by den (unguarded, executed whenever dim > 0), the
volume divides by s_rho (unguarded), and the accumulation divides by r only
inside the `r >= 1.0e-12` guard. -/
noncomputable def mixedPass2_body_checked (dim : ℕ) (K : SPHKernel) (d : Particle)
    (den : ℝ) (numerator : ℕ → ℝ) (s : Particle) (mm : ℕ → ℝ) : Option (ℕ → ℝ) :=
  if 0 < dim ∧ den = 0 then none
  else
    (checkedDiv s.m s.rho).bind (fun _ =>
      if 1.0e-12 ≤ pairR d s then
        if pairR d s = 0 then none
        else some (mixedPass2_body dim K d den numerator s mm)
      else some mm)

/-- Checked MixedKernelCorrectionPreStep.loop_all: pass 1 then pass 2, each
propagating the first zero-denominator encounter. -/
noncomputable def Mixed_loop_all_checked (dim : ℕ) (K : SPHKernel) (d : Particle)
    (nbrs : List Particle) (mm : ℕ → ℝ) : Option ((ℕ → ℝ) × ℝ) :=
  (mixedPass1_checked dim K d nbrs).bind (fun p1 =>
    (nbrs.foldlM (fun m s => mixedPass2_body_checked dim K d p1.1 p1.2 s m) mm).bind
      (fun mm2 => some (mm2, p1.1)))

/-- The worked example's destination particle a at the origin with
h = m = rho = 1. -/
noncomputable def exA : Particle := ⟨0, 0, 0, 1, 1, 1⟩

/-- The worked example's neighbor particle b at (1, 0, 0) with
h = m = rho = 1. -/
noncomputable def exB : Particle := ⟨1, 0, 0, 1, 1, 1⟩

/-- The worked example's test kernel read literally: W = max(0, 1 - r) and
gradient -xij on the open support r < 1; on r >= 1, where the stated clause
does not apply, the compactly supported kernel's gradient is zero. -/
noncomputable def testKernelOpen : SPHKernel where
  kernel := fun _ r _ => max 0 (1 - r)
  gradient := fun xij r _ => fun i => if r < 1 then -(xij i) else 0

/-- The worked example's test kernel with the gradient clause extended to
the closed support r <= 1, which is the reading under which the example's
pair (at distance exactly 1) has gradient -xij. -/
noncomputable def testKernelClosed : SPHKernel where
  kernel := fun _ r _ => max 0 (1 - r)
  gradient := fun xij r _ => fun i => if r ≤ 1 then -(xij i) else 0

/-- A constant-field kernel evaluator used to instantiate theorems with
hypotheses on concrete inputs: W = 1 everywhere, gradient (1, 0, 0). -/
noncomputable def constKernel : SPHKernel where
  kernel := fun _ _ _ => 1
  gradient := fun _ _ _ => fun i => if i = 0 then 1 else 0

/-- A kernel evaluator whose value is identically zero (its gradient is
(1, 0, 0)), producing den = 0 in the mixed assembler's first pass. -/
noncomputable def zeroValueKernel : SPHKernel where
  kernel := fun _ _ _ => 0
  gradient := fun _ _ _ => fun i => if i = 0 then 1 else 0

/-- A left fold that only adds is the sum of the per-element contributions. -/
theorem foldl_add_sum {α : Type} (f : α → ℝ) :
    ∀ (l : List α) (a : ℝ), l.foldl (fun acc s => acc + f s) a = a + (l.map f).sum := by
  intro l
  induction l with
  | nil => intro a; simp
  | cons x xs ih => intro a; simp [List.foldl_cons, ih, add_assoc]

/-- Zeroing the 9-entry slice leaves indices past 8 alone and writes exact
zeros below 9. -/
theorem preStep_init_apply (mm : ℕ → ℝ) (p : ℕ) :
    preStep_init mm p = if p < 9 then 0 else mm p := by
  have h9 : List.range 9 = [0, 1, 2, 3, 4, 5, 6, 7, 8] := by decide
  simp only [preStep_init, h9, List.foldl_cons, List.foldl_nil, Function.update_apply]
  rcases Nat.lt_or_ge p 9 with hp | hp
  · interval_cases p <;> norm_num
  · have h0 : p ≠ 0 := by omega
    have h1 : p ≠ 1 := by omega
    have h2 : p ≠ 2 := by omega
    have h3 : p ≠ 3 := by omega
    have h4 : p ≠ 4 := by omega
    have h5 : p ≠ 5 := by omega
    have h6 : p ≠ 6 := by omega
    have h7 : p ≠ 7 := by omega
    have h8 : p ≠ 8 := by omega
    have h9' : ¬ p < 9 := by omega
    simp [h0, h1, h2, h3, h4, h5, h6, h7, h8, h9']

/-- Pointwise characterization of the double accumulation loop for the
dimensions the module supports (dim <= 3): every entry of the leading
dim x dim block gains exactly one term and every other entry is untouched. -/
theorem mmAccum_apply (dim : ℕ) (hdim : dim ≤ 3) (c : ℝ) (xij : ℕ → ℝ) (r : ℝ)
    (mm : ℕ → ℝ) (p : ℕ) :
    mmAccum dim c xij r mm p =
      mm p + (if p < 9 ∧ p / 3 < dim ∧ p % 3 < dim
              then c * xij (p / 3) * xij (p % 3) / r else 0) := by
  interval_cases dim
  · simp [mmAccum]
  · have h1 : List.range 1 = [0] := by decide
    simp only [mmAccum, h1, List.foldl_cons, List.foldl_nil, Function.update_apply]
    rcases Nat.lt_or_ge p 9 with hp | hp
    · interval_cases p <;> norm_num
    · have e0 : p ≠ 0 := by omega
      have h9' : ¬ p < 9 := by omega
      simp [e0, h9']
  · have h2 : List.range 2 = [0, 1] := by decide
    simp only [mmAccum, h2, List.foldl_cons, List.foldl_nil, Function.update_apply]
    rcases Nat.lt_or_ge p 9 with hp | hp
    · interval_cases p <;> norm_num
    · have e0 : p ≠ 0 := by omega
      have e1 : p ≠ 1 := by omega
      have e3 : p ≠ 3 := by omega
      have e4 : p ≠ 4 := by omega
      have h9' : ¬ p < 9 := by omega
      simp [e0, e1, e3, e4, h9']
  · have h3 : List.range 3 = [0, 1, 2] := by decide
    simp only [mmAccum, h3, List.foldl_cons, List.foldl_nil, Function.update_apply]
    rcases Nat.lt_or_ge p 9 with hp | hp
    · interval_cases p <;> norm_num
    · have e0 : p ≠ 0 := by omega
      have e1 : p ≠ 1 := by omega
      have e2 : p ≠ 2 := by omega
      have e3 : p ≠ 3 := by omega
      have e4 : p ≠ 4 := by omega
      have e5 : p ≠ 5 := by omega
      have e6 : p ≠ 6 := by omega
      have e7 : p ≠ 7 := by omega
      have e8 : p ≠ 8 := by omega
      have h9' : ¬ p < 9 := by omega
      simp [e0, e1, e2, e3, e4, e5, e6, e7, e8, h9']

/-- One neighbor iteration changes each entry by exactly its closed-form
contribution. -/
theorem GradientCorrectionPreStep_body_apply (dim : ℕ) (hdim : dim ≤ 3)
    (KERNEL : SPHKernel) (d s : Particle) (mm : ℕ → ℝ) (p : ℕ) :
    GradientCorrectionPreStep_body dim KERNEL d s mm p = mm p + gcContrib dim KERNEL d s p := by
  unfold GradientCorrectionPreStep_body gcContrib
  by_cases hr : 1.0e-12 ≤ pairR d s
  · simp only [hr, if_true, true_and]
    rw [mmAccum_apply dim hdim]
  · simp [hr]

/-- The whole loop_all changes each entry by the sum of the per-neighbor
contributions. -/
theorem GradientCorrectionPreStep_loop_all_apply (dim : ℕ) (hdim : dim ≤ 3)
    (KERNEL : SPHKernel) (d : Particle) (nbrs : List Particle) (mm : ℕ → ℝ) (p : ℕ) :
    GradientCorrectionPreStep_loop_all dim KERNEL d nbrs mm p =
      mm p + (nbrs.map (fun s => gcContrib dim KERNEL d s p)).sum := by
  induction nbrs generalizing mm with
  | nil => simp [GradientCorrectionPreStep_loop_all]
  | cons b bs ih =>
    have h1 : GradientCorrectionPreStep_loop_all dim KERNEL d (b :: bs) mm =
        GradientCorrectionPreStep_loop_all dim KERNEL d bs
          (GradientCorrectionPreStep_body dim KERNEL d b mm) := rfl
    rw [h1, ih, GradientCorrectionPreStep_body_apply dim hdim, List.map_cons,
      List.sum_cons, add_assoc]

/-- Overwriting the first n entries in index order replaces exactly those
entries. -/
theorem range_update_foldl (n : ℕ) (res D : ℕ → ℝ) :
    (List.range n).foldl (fun D2 i => Function.update D2 i (res i)) D =
      fun p => if p < n then res p else D p := by
  induction n with
  | zero => funext p; simp
  | succ k ih =>
    rw [List.range_succ, List.foldl_append, ih]
    funext p
    simp only [List.foldl_cons, List.foldl_nil, Function.update_apply]
    by_cases hp : p = k
    · subst hp; simp
    · by_cases hlt : p < k
      · have h1 : p < k + 1 := by omega
        simp [hp, hlt, h1]
      · have h1 : ¬ p < k + 1 := by omega
        simp [hp, hlt, h1]

/-- C5: the Kernel-Sum Normalizer resets cwij to 0 and its loop over all
neighbors accumulates exactly the volume-weighted kernel sum
cwij = sum over b of (m_b / rho_b) * W_ab. -/
theorem C5_kernel_sum_normalizer (K : SPHKernel) (d : Particle) (nbrs : List Particle) :
    KernelCorrection_init = 0 ∧
    KernelCorrection_run K d nbrs =
      (nbrs.map (fun s =>
        s.m / s.rho * K.kernel (pairXij d s) (pairR d s) (pairHij d s))).sum := by
  constructor
  · norm_num [KernelCorrection_init]
  · have h := foldl_add_sum
      (fun s : Particle => s.m * K.kernel (pairXij d s) (pairR d s) (pairHij d s) / s.rho)
      nbrs KernelCorrection_init
    have he : (fun s : Particle => s.m * K.kernel (pairXij d s) (pairR d s) (pairHij d s) / s.rho)
        = fun s : Particle => s.m / s.rho * K.kernel (pairXij d s) (pairR d s) (pairHij d s) := by
      funext s
      ring
    calc KernelCorrection_run K d nbrs
        = KernelCorrection_init + (nbrs.map (fun s : Particle =>
            s.m * K.kernel (pairXij d s) (pairR d s) (pairHij d s) / s.rho)).sum := h
      _ = (nbrs.map (fun s : Particle =>
            s.m / s.rho * K.kernel (pairXij d s) (pairR d s) (pairHij d s))).sum := by
          rw [he]
          norm_num [KernelCorrection_init]

/-- C2: per neighbor, the Moment-Matrix Assembler first resets the 9-entry
matrix to zero; then, when r is at least 1e-12, entry 3i+j (i, j below dim)
gains exactly the term dw * V * xij i * xij j / r, and when r is below
1e-12 the neighbor contributes exactly zero (the division by r is skipped,
the matrix is returned unchanged). -/
theorem C2_moment_matrix_contribution (dim : ℕ) (hdim : dim ≤ 3) (KERNEL : SPHKernel)
    (d s : Particle) (mm : ℕ → ℝ) :
    (∀ p, preStep_init mm p = if p < 9 then 0 else mm p) ∧
    (1.0e-12 ≤ pairR d s →
      ∀ i < dim, ∀ j < dim,
        GradientCorrectionPreStep_body dim KERNEL d s mm (3 * i + j) =
          mm (3 * i + j) +
            norm3 (KERNEL.gradient (pairXij d s) (pairR d s) (pairHij d s)) *
              particleVolume s * pairXij d s i * pairXij d s j / pairR d s) ∧
    (pairR d s < 1.0e-12 → GradientCorrectionPreStep_body dim KERNEL d s mm = mm) := by
  refine ⟨preStep_init_apply mm, ?_, ?_⟩
  · intro hr i hi j hj
    have hij : (3 * i + j) / 3 = i ∧ (3 * i + j) % 3 = j ∧ 3 * i + j < 9 := by
      have hi3 : i < 3 := lt_of_lt_of_le hi hdim
      have hj3 : j < 3 := lt_of_lt_of_le hj hdim
      omega
    rw [GradientCorrectionPreStep_body_apply dim hdim, gcContrib]
    rw [hij.1, hij.2.1]
    simp only [hr, hij.1, hij.2.1, hij.2.2, hi, hj, and_true, true_and, if_true]
  · intro hr
    unfold GradientCorrectionPreStep_body
    have : ¬ (1.0e-12 ≤ pairR d s) := not_le.mpr hr
    simp [this]

/-- Helper for dimensional zeroing: for any kernel evaluator, any neighbor
configuration and dim at most 3, every matrix entry outside the leading
dim x dim block (row or column index at least dim) is exactly zero after
assembly from the zeroed matrix. -/
theorem loop_all_out_of_block (dim : ℕ) (hdim : dim ≤ 3) (KERNEL : SPHKernel)
    (d : Particle) (nbrs : List Particle) (mm : ℕ → ℝ) (p : ℕ) (hp : p < 9)
    (hout : dim ≤ p / 3 ∨ dim ≤ p % 3) :
    GradientCorrectionPreStep_loop_all dim KERNEL d nbrs (preStep_init mm) p = 0 := by
  rw [GradientCorrectionPreStep_loop_all_apply dim hdim, preStep_init_apply]
  have hz : ∀ s ∈ nbrs, gcContrib dim KERNEL d s p = 0 := by
    intro s _
    unfold gcContrib
    have : ¬ (1.0e-12 ≤ pairR d s ∧ p < 9 ∧ p / 3 < dim ∧ p % 3 < dim) := by
      rintro ⟨-, -, hr, hc⟩
      omega
    simp [this]
  have : (nbrs.map (fun s => gcContrib dim KERNEL d s p)).sum = 0 := by
    apply List.sum_eq_zero
    intro x hx
    rcases List.mem_map.mp hx with ⟨s, hs, rfl⟩
    exact hz s hs
  rw [this, if_pos hp, add_zero]

/-- C7: traversal order of the neighbor list is irrelevant in exact
arithmetic: any permutation of the neighbor list yields the same cwij from
the Kernel-Sum Normalizer and the same m_mat from the Moment-Matrix
Assembler. -/
theorem C7_neighbor_permutation (dim : ℕ) (hdim : dim ≤ 3) (K : SPHKernel) (d : Particle)
    (l1 l2 : List Particle) (hperm : l1.Perm l2) (mm : ℕ → ℝ) :
    KernelCorrection_run K d l1 = KernelCorrection_run K d l2 ∧
    ∀ p, GradientCorrectionPreStep_loop_all dim K d l1 mm p =
      GradientCorrectionPreStep_loop_all dim K d l2 mm p := by
  constructor
  · have e1 := foldl_add_sum
      (fun s : Particle => s.m * K.kernel (pairXij d s) (pairR d s) (pairHij d s) / s.rho)
      l1 KernelCorrection_init
    have e2 := foldl_add_sum
      (fun s : Particle => s.m * K.kernel (pairXij d s) (pairR d s) (pairHij d s) / s.rho)
      l2 KernelCorrection_init
    calc KernelCorrection_run K d l1
        = KernelCorrection_init + (l1.map (fun s : Particle =>
            s.m * K.kernel (pairXij d s) (pairR d s) (pairHij d s) / s.rho)).sum := e1
      _ = KernelCorrection_init + (l2.map (fun s : Particle =>
            s.m * K.kernel (pairXij d s) (pairR d s) (pairHij d s) / s.rho)).sum := by
          rw [(hperm.map _).sum_eq]
      _ = KernelCorrection_run K d l2 := e2.symm
  · intro p
    rw [GradientCorrectionPreStep_loop_all_apply dim hdim,
      GradientCorrectionPreStep_loop_all_apply dim hdim,
      (hperm.map (fun s => gcContrib dim K d s p)).sum_eq]

/-- C1: the Gradient Corrector is an accept/reject gate on the solver
result res = gj_solve(temp, DWIJ, dim): when the relative-change metric
Delta is within tol, the first dim components of DWIJ are overwritten with
res (the rest untouched); otherwise DWIJ is returned exactly unmodified.
Both branches are total. -/
theorem C1_gradient_corrector_gate (dim : ℕ) (tol : ℝ)
    (gj_solve : (ℕ → ℝ) → (ℕ → ℝ) → ℕ → (ℕ → ℝ)) (m_mat DWIJ : ℕ → ℝ) (HIJ : ℝ) :
    (GradientCorrection_loop dim tol gj_solve m_mat DWIJ HIJ).2 =
      if deltaSpec dim DWIJ (gj_solve (GradientCorrection_temp dim m_mat) DWIJ dim) HIJ ≤ tol
      then fun i => if i < dim
        then gj_solve (GradientCorrection_temp dim m_mat) DWIJ dim i
        else DWIJ i
      else DWIJ := by
  have hch : (List.range dim).foldl
      (fun ch i => ch + |DWIJ i - gj_solve (GradientCorrection_temp dim m_mat) DWIJ dim i| /
        (|DWIJ i| + 1.0e-4 * HIJ)) 0.0 =
      deltaSpec dim DWIJ (gj_solve (GradientCorrection_temp dim m_mat) DWIJ dim) HIJ := by
    rw [foldl_add_sum
      (fun i => |DWIJ i - gj_solve (GradientCorrection_temp dim m_mat) DWIJ dim i| /
        (|DWIJ i| + 1.0e-4 * HIJ)) (List.range dim) 0.0]
    norm_num [deltaSpec]
  simp only [GradientCorrection_loop]
  rw [hch]
  by_cases hc : deltaSpec dim DWIJ (gj_solve (GradientCorrection_temp dim m_mat) DWIJ dim) HIJ ≤ tol
  · rw [if_pos hc, if_pos hc, range_update_foldl]
  · rw [if_neg hc, if_neg hc]

/-- C8: the Gradient Corrector never writes the stored correction matrix:
in both the accept and the reject branch, and for any solver behavior, the
destination particle's d_m_mat slice is returned exactly as it was read. -/
theorem C8_corrector_preserves_m_mat (dim : ℕ) (tol : ℝ)
    (gj_solve : (ℕ → ℝ) → (ℕ → ℝ) → ℕ → (ℕ → ℝ)) (m_mat DWIJ : ℕ → ℝ) (HIJ : ℝ) :
    (GradientCorrection_loop dim tol gj_solve m_mat DWIJ HIJ).1 = m_mat := by
  simp only [GradientCorrection_loop]
  split <;> rfl

/-- The den accumulator of the first mixed pass is a running sum. -/
theorem mixedPass1_foldl_fst (dim : ℕ) (K : SPHKernel) (d : Particle) :
    ∀ (nbrs : List Particle) (acc : ℝ × (ℕ → ℝ)),
      (List.foldl (mixedPass1_step dim K d) acc nbrs).1 = acc.1 + mixedDen K d nbrs := by
  intro nbrs
  induction nbrs with
  | nil => intro acc; simp [mixedDen]
  | cons b bs ih =>
    intro acc
    rw [List.foldl_cons, ih]
    simp [mixedPass1_step, mixedDen, add_assoc]

/-- The numerator accumulator of the first mixed pass is a running sum on
the first dim components and untouched past them. -/
theorem mixedPass1_foldl_snd (dim : ℕ) (K : SPHKernel) (d : Particle) :
    ∀ (nbrs : List Particle) (acc : ℝ × (ℕ → ℝ)) (i : ℕ),
      (List.foldl (mixedPass1_step dim K d) acc nbrs).2 i =
        acc.2 i + if i < dim then mixedNumerator K d nbrs i else 0 := by
  intro nbrs
  induction nbrs with
  | nil => intro acc i; simp [mixedNumerator]
  | cons b bs ih =>
    intro acc i
    rw [List.foldl_cons, ih]
    by_cases hi : i < dim
    · simp [mixedPass1_step, hi, mixedNumerator, add_assoc]
    · simp [mixedPass1_step, hi, mixedNumerator]

/-- A second-pass iteration of the mixed assembler is exactly a
Moment-Matrix Assembler iteration fed with the debiased kernel, for any
numerator function agreeing on the components actually read. -/
theorem mixedPass2_body_congr (dim : ℕ) (K : SPHKernel) (d : Particle) (den : ℝ)
    (num1 num2 : ℕ → ℝ) (s : Particle) (mm : ℕ → ℝ) (h : ∀ i < dim, num1 i = num2 i) :
    mixedPass2_body dim K d den num1 s mm =
      GradientCorrectionPreStep_body dim (debiasedKernel dim K den num2) d s mm := by
  have hfun : (fun i => if i < dim then
        (K.gradient (pairXij d s) (pairR d s) (pairHij d s) i - num1 i / den) / den else 0)
      = fun i => if i < dim then
        (K.gradient (pairXij d s) (pairR d s) (pairHij d s) i - num2 i / den) / den else 0 := by
    funext i
    by_cases hi : i < dim
    · simp [hi, h i hi]
    · simp [hi]
  simp only [mixedPass2_body, GradientCorrectionPreStep_body, debiasedKernel]
  rw [hfun]

/-- Characterization of MixedKernelCorrectionPreStep.loop_all: the stored
cwij is den = sum over b of V_b * W_ab, and the assembled matrix is exactly
the Moment-Matrix Assembler's run over the same neighbor list with the
debiased kernel built from den and numerator[i] = sum over b of
V_b * (grad W_ab)[i]. -/
theorem Mixed_loop_all_char (dim : ℕ) (K : SPHKernel) (d : Particle)
    (nbrs : List Particle) (mm : ℕ → ℝ) :
    MixedKernelCorrectionPreStep_loop_all dim K d nbrs mm =
      (GradientCorrectionPreStep_loop_all dim
        (debiasedKernel dim K (mixedDen K d nbrs) (mixedNumerator K d nbrs)) d nbrs mm,
       mixedDen K d nbrs) := by
  have h1 : (mixedPass1 dim K d nbrs).1 = mixedDen K d nbrs := by
    have h := mixedPass1_foldl_fst dim K d nbrs (0.0, fun _ => 0.0)
    calc (mixedPass1 dim K d nbrs).1
        = (0.0 : ℝ) + mixedDen K d nbrs := h
      _ = mixedDen K d nbrs := by norm_num
  have h2 : ∀ i < dim, (mixedPass1 dim K d nbrs).2 i = mixedNumerator K d nbrs i := by
    intro i hi
    have h := mixedPass1_foldl_snd dim K d nbrs (0.0, fun _ => 0.0) i
    calc (mixedPass1 dim K d nbrs).2 i
        = (0.0 : ℝ) + if i < dim then mixedNumerator K d nbrs i else 0 := h
      _ = mixedNumerator K d nbrs i := by rw [if_pos hi]; norm_num
  rw [Prod.ext_iff]
  constructor
  · simp only [MixedKernelCorrectionPreStep_loop_all]
    rw [h1]
    unfold GradientCorrectionPreStep_loop_all
    apply List.foldl_ext
    intro m s hs
    exact mixedPass2_body_congr dim K d (mixedDen K d nbrs) (mixedPass1 dim K d nbrs).2
      (mixedNumerator K d nbrs) s m h2
  · simp only [MixedKernelCorrectionPreStep_loop_all]
    exact h1

/-- C3: the Mixed Assembler's pass 1 stores cwij = den = sum over b of
V_b * W_ab, and its pass 2 assembles exactly the Moment-Matrix Assembler's
formula with the debiased gradient dwij1[i] = (dwij[i] - numerator[i]/den)/den
(numerator[i] = sum over b of V_b * (grad W_ab)[i]) in place of the raw
gradient, same r >= 1e-12 guard included. -/
theorem C3_mixed_assembler_two_pass (dim : ℕ) (K : SPHKernel) (d : Particle)
    (nbrs : List Particle) (mm : ℕ → ℝ) :
    (MixedKernelCorrectionPreStep_loop_all dim K d nbrs mm).2 = mixedDen K d nbrs ∧
    (MixedKernelCorrectionPreStep_loop_all dim K d nbrs mm).1 =
      GradientCorrectionPreStep_loop_all dim
        (debiasedKernel dim K (mixedDen K d nbrs) (mixedNumerator K d nbrs)) d nbrs mm := by
  rw [Mixed_loop_all_char]
  exact ⟨rfl, rfl⟩

/-- C6: for any neighbor configuration, dim at most 3 and both assemblers
(plain and mixed), every matrix entry outside the leading dim x dim block
(row or column index at least dim; for dim = 2 the flattened indices
2, 5, 6, 7, 8) is exactly zero after assembly from the zeroed matrix. -/
theorem C6_dimensional_zeroing (dim : ℕ) (hdim : dim ≤ 3) (KERNEL : SPHKernel)
    (d : Particle) (nbrs : List Particle) (mm : ℕ → ℝ) (p : ℕ) (hp : p < 9)
    (hout : dim ≤ p / 3 ∨ dim ≤ p % 3) :
    GradientCorrectionPreStep_loop_all dim KERNEL d nbrs (preStep_init mm) p = 0 ∧
    (MixedKernelCorrectionPreStep_loop_all dim KERNEL d nbrs (preStep_init mm)).1 p = 0 := by
  constructor
  · exact loop_all_out_of_block dim hdim KERNEL d nbrs mm p hp hout
  · rw [Mixed_loop_all_char]
    exact loop_all_out_of_block dim hdim _ d nbrs mm p hp hout

/-- C10: on an empty neighbor list the mixed assembler stores cwij = 0,
leaves the zeroed matrix all zeros, and its checked evaluation performs no
division at all (pass 2 never runs), so no division by zero occurs. -/
theorem C10_mixed_empty_neighbors (dim : ℕ) (K : SPHKernel) (d : Particle) (mm : ℕ → ℝ) :
    (MixedKernelCorrectionPreStep_loop_all dim K d [] (preStep_init mm)).2 = 0 ∧
    (∀ p, (MixedKernelCorrectionPreStep_loop_all dim K d [] (preStep_init mm)).1 p =
      if p < 9 then 0 else mm p) ∧
    Mixed_loop_all_checked dim K d [] (preStep_init mm) = some (preStep_init mm, 0) := by
  refine ⟨?_, ?_, ?_⟩
  · simp only [MixedKernelCorrectionPreStep_loop_all, mixedPass1, List.foldl_nil]
    norm_num
  · intro p
    simp only [MixedKernelCorrectionPreStep_loop_all, List.foldl_nil]
    exact preStep_init_apply mm p
  · simp only [Mixed_loop_all_checked, mixedPass1_checked, List.foldlM_nil, Option.bind]
    norm_num

/-- The checked Kernel-Sum Normalizer succeeds, returning the plain result,
whenever every neighbor density is nonzero. -/
theorem KernelCorrection_checked_fold (K : SPHKernel) (d : Particle) :
    ∀ (nbrs : List Particle), (∀ s ∈ nbrs, s.rho ≠ 0) → ∀ (acc : ℝ),
      nbrs.foldlM (fun c s =>
        (checkedDiv (s.m * K.kernel (pairXij d s) (pairR d s) (pairHij d s)) s.rho).map
          (fun t => c + t)) acc =
      some (nbrs.foldl (fun c s =>
        KernelCorrection_loop c s (K.kernel (pairXij d s) (pairR d s) (pairHij d s))) acc) := by
  intro nbrs
  induction nbrs with
  | nil => intro _ acc; simp
  | cons b bs ih =>
    intro h acc
    have hb : b.rho ≠ 0 := h b (List.mem_cons_self b bs)
    rw [List.foldlM_cons]
    have hhead : (checkedDiv (b.m * K.kernel (pairXij d b) (pairR d b) (pairHij d b)) b.rho).map
        (fun t => acc + t) =
        some (KernelCorrection_loop acc b (K.kernel (pairXij d b) (pairR d b) (pairHij d b))) := by
      simp [checkedDiv, hb, KernelCorrection_loop]
    rw [hhead, List.foldl_cons]
    exact ih (fun s hs => h s (List.mem_cons_of_mem b hs)) _

/-- The checked first mixed pass succeeds, returning the plain pass-1
accumulator, whenever every neighbor density is nonzero. -/
theorem mixedPass1_checked_fold (dim : ℕ) (K : SPHKernel) (d : Particle) :
    ∀ (nbrs : List Particle), (∀ s ∈ nbrs, s.rho ≠ 0) → ∀ (acc : ℝ × (ℕ → ℝ)),
      nbrs.foldlM
        (fun (acc2 : ℝ × (ℕ → ℝ)) s =>
          (checkedDiv s.m s.rho).map (fun V =>
            (acc2.1 + V * K.kernel (pairXij d s) (pairR d s) (pairHij d s),
             fun i => if i < dim then
               acc2.2 i + V * K.gradient (pairXij d s) (pairR d s) (pairHij d s) i
             else acc2.2 i))) acc =
      some (nbrs.foldl (mixedPass1_step dim K d) acc) := by
  intro nbrs
  induction nbrs with
  | nil => intro _ acc; simp
  | cons b bs ih =>
    intro h acc
    have hb : b.rho ≠ 0 := h b (List.mem_cons_self b bs)
    rw [List.foldlM_cons]
    have hhead : (checkedDiv b.m b.rho).map (fun V =>
        (acc.1 + V * K.kernel (pairXij d b) (pairR d b) (pairHij d b),
         fun i => if i < dim then
           acc.2 i + V * K.gradient (pairXij d b) (pairR d b) (pairHij d b) i
         else acc.2 i)) = some (mixedPass1_step dim K d acc b) := by
      simp [checkedDiv, hb, mixedPass1_step, particleVolume]
    rw [hhead, List.foldl_cons]
    exact ih (fun s hs => h s (List.mem_cons_of_mem b hs)) _

/-- The checked second mixed pass succeeds, returning the plain pass-2
fold, whenever every neighbor density is nonzero and the den division is
not degenerate; the division by r never fails because it sits under the
`r >= 1.0e-12` guard. -/
theorem mixedPass2_checked_fold (dim : ℕ) (K : SPHKernel) (d : Particle) (den : ℝ)
    (num : ℕ → ℝ) (hden : ¬ (0 < dim ∧ den = 0)) :
    ∀ (nbrs : List Particle), (∀ s ∈ nbrs, s.rho ≠ 0) → ∀ (mm : ℕ → ℝ),
      nbrs.foldlM (fun m s => mixedPass2_body_checked dim K d den num s m) mm =
        some (nbrs.foldl (fun m s => mixedPass2_body dim K d den num s m) mm) := by
  intro nbrs
  induction nbrs with
  | nil => intro _ mm; simp
  | cons b bs ih =>
    intro h mm
    have hb : b.rho ≠ 0 := h b (List.mem_cons_self b bs)
    have hbody : mixedPass2_body_checked dim K d den num b mm =
        some (mixedPass2_body dim K d den num b mm) := by
      unfold mixedPass2_body_checked
      rw [if_neg hden]
      by_cases hr : 1.0e-12 ≤ pairR d b
      · have hr0 : pairR d b ≠ 0 := by
          intro h0
          rw [h0] at hr
          norm_num at hr
        simp [checkedDiv, hb, hr, hr0]
      · simp only [checkedDiv, hb, if_neg, hr, if_false]
        simp only [mixedPass2_body]
        rw [if_neg hr]
        simp [hb]
    rw [List.foldlM_cons, hbody]
    simp [ih (fun s hs => h s (List.mem_cons_of_mem b hs))]

/-- C4 counterexample: not every division is guarded.  With one neighbor at
unit distance and a kernel evaluator whose value vanishes on the pair, the
mixed assembler's first pass yields den = 0, and its second pass then
divides numerator[i] by den with no guard: the checked evaluation aborts
with a zero denominator. -/
theorem C4_counterexample_unguarded_den :
    Mixed_loop_all_checked 2 zeroValueKernel exA [exB] (fun _ => 0) = none := by
  have hp1 : mixedPass1_checked 2 zeroValueKernel exA [exB] =
      some (0, fun i => if i < 2 then
        particleVolume exB * zeroValueKernel.gradient (pairXij exA exB) (pairR exA exB)
          (pairHij exA exB) i else 0) := by
    simp only [mixedPass1_checked, List.foldlM_cons, List.foldlM_nil]
    have hb : exB.rho ≠ 0 := by
      simp only [exB]
      norm_num
    simp [checkedDiv, hb, zeroValueKernel, exB, particleVolume]
    refine ⟨by norm_num, ?_⟩
    funext i
    by_cases hi : i < 2
    · simp [hi, zeroValueKernel, particleVolume, exB]
      norm_num
    · simp [hi]
      norm_num
  simp only [Mixed_loop_all_checked, hp1, Option.some_bind]
  have hbody : mixedPass2_body_checked 2 zeroValueKernel exA 0
      (fun i => if i < 2 then
        particleVolume exB * zeroValueKernel.gradient (pairXij exA exB) (pairR exA exB)
          (pairHij exA exB) i else 0) exB (fun _ => 0) = none := by
    unfold mixedPass2_body_checked
    have hc : (0 < 2 ∧ (0 : ℝ) = 0) := by norm_num
    rw [if_pos hc]
  simp [List.foldlM_cons, hbody]

/-- C4 amended: the division by pair distance r is guarded by
`r >= 1.0e-12`, but the divisions by neighbor density (V = m / rho) and by
the mixed assembler's den are unguarded.  Under the preconditions that
every neighbor density is nonzero and (when neighbors exist) den is
nonzero, every checked evaluation succeeds and agrees with the plain one,
so no division by zero occurs. -/
theorem C4_division_guards (dim : ℕ) (K : SPHKernel) (d : Particle) (nbrs : List Particle)
    (mm : ℕ → ℝ) (hrho : ∀ s ∈ nbrs, s.rho ≠ 0)
    (hden : nbrs = [] ∨ (mixedPass1 dim K d nbrs).1 ≠ 0) :
    KernelCorrection_run_checked K d nbrs = some (KernelCorrection_run K d nbrs) ∧
    Mixed_loop_all_checked dim K d nbrs mm =
      some (MixedKernelCorrectionPreStep_loop_all dim K d nbrs mm) := by
  constructor
  · unfold KernelCorrection_run_checked KernelCorrection_run
    exact KernelCorrection_checked_fold K d nbrs hrho KernelCorrection_init
  · have hp1 : mixedPass1_checked dim K d nbrs = some (mixedPass1 dim K d nbrs) := by
      unfold mixedPass1_checked mixedPass1
      exact mixedPass1_checked_fold dim K d nbrs hrho (0.0, fun _ => 0.0)
    rcases hden with hnil | hden
    · subst hnil
      simp [Mixed_loop_all_checked, MixedKernelCorrectionPreStep_loop_all, mixedPass1,
        mixedPass1_checked]
    · have hnd : ¬ (0 < dim ∧ (mixedPass1 dim K d nbrs).1 = 0) := by
        rintro ⟨-, h0⟩
        exact hden h0
      have h2 := mixedPass2_checked_fold dim K d (mixedPass1 dim K d nbrs).1
        (mixedPass1 dim K d nbrs).2 hnd nbrs hrho mm
      simp only [Mixed_loop_all_checked, hp1, Option.some_bind, h2,
        MixedKernelCorrectionPreStep_loop_all]

/-- First displacement component of the worked example's pair. -/
theorem pairXij_ex0 : pairXij exA exB 0 = -1 := by
  simp [pairXij, exA, exB]

/-- Second displacement component of the worked example's pair. -/
theorem pairXij_ex1 : pairXij exA exB 1 = 0 := by
  simp [pairXij, exA, exB]

/-- Third displacement component of the worked example's pair. -/
theorem pairXij_ex2 : pairXij exA exB 2 = 0 := by
  simp [pairXij, exA, exB]

/-- The worked example's pair distance is exactly 1. -/
theorem pairR_ex : pairR exA exB = 1 := by
  rw [pairR, norm3, pairXij_ex0, pairXij_ex1, pairXij_ex2]
  rw [show ((-1 : ℝ) * -1 + 0 * 0 + 0 * 0) = 1 by norm_num]
  exact Real.sqrt_one

/-- At the example pair the open-support kernel's gradient clause does not
fire (r = 1 is not below 1), so the gradient is zero. -/
theorem testOpen_grad_ex :
    testKernelOpen.gradient (pairXij exA exB) (pairR exA exB) (pairHij exA exB) =
      fun _ => 0 := by
  rw [pairR_ex]
  funext i
  simp [testKernelOpen]

/-- At the example pair the closed-support kernel's gradient is -xij. -/
theorem testClosed_grad_ex :
    testKernelClosed.gradient (pairXij exA exB) (pairR exA exB) (pairHij exA exB) =
      fun i => -(pairXij exA exB i) := by
  rw [pairR_ex]
  funext i
  simp [testKernelClosed]

/-- The zero vector has norm 0. -/
theorem norm3_zero_fun : norm3 (fun _ => (0 : ℝ)) = 0 := by
  rw [norm3]
  norm_num [Real.sqrt_zero]

/-- The example pair's negated displacement has norm 1. -/
theorem norm3_neg_xij_ex : norm3 (fun i => -(pairXij exA exB i)) = 1 := by
  rw [norm3, Real.sqrt_eq_one]
  norm_num [pairXij_ex0, pairXij_ex1, pairXij_ex2]

/-- The example neighbor has unit volume. -/
theorem particleVolume_exB : particleVolume exB = 1 := by
  simp [particleVolume, exB]

/-- C9 counterexample: reading the stated test kernel literally, with its
gradient clause -xij only on r < 1 (and the compactly supported zero
outside), the example pair at distance exactly 1 has zero gradient, so the
assembled m_mat[0] is 0, not the claimed 1.0. -/
theorem C9_counterexample_boundary_pair :
    GradientCorrectionPreStep_loop_all 2 testKernelOpen exA [exB]
      (preStep_init (fun _ => 0)) 0 ≠ 1 := by
  have hap := GradientCorrectionPreStep_loop_all_apply 2 (by norm_num) testKernelOpen exA
    [exB] (preStep_init (fun _ => 0)) 0
  rw [hap, preStep_init_apply]
  have hc : gcContrib 2 testKernelOpen exA exB 0 = 0 := by
    rw [gcContrib, testOpen_grad_ex, norm3_zero_fun]
    split_ifs <;> simp
  simp [hc]

/-- C9 amended: with the example's gradient clause read on the closed
support r <= 1 (so that the pair at distance exactly 1 has gradient -xij,
as the spec's own arithmetic assumes), the Moment-Matrix Assembler on
particle a yields m_mat[0] = 1.0, m_mat[4] = 0, zero cross terms involving
the second coordinate, and zeros outside the 2 x 2 block. -/
theorem C9_worked_example_closed_support :
    (GradientCorrectionPreStep_loop_all 2 testKernelClosed exA [exB]
      (preStep_init (fun _ => 0)) 0 = 1) ∧
    (GradientCorrectionPreStep_loop_all 2 testKernelClosed exA [exB]
      (preStep_init (fun _ => 0)) 4 = 0) ∧
    (GradientCorrectionPreStep_loop_all 2 testKernelClosed exA [exB]
      (preStep_init (fun _ => 0)) 1 = 0) ∧
    (GradientCorrectionPreStep_loop_all 2 testKernelClosed exA [exB]
      (preStep_init (fun _ => 0)) 3 = 0) ∧
    (∀ p, p = 2 ∨ p = 5 ∨ p = 6 ∨ p = 7 ∨ p = 8 →
      GradientCorrectionPreStep_loop_all 2 testKernelClosed exA [exB]
        (preStep_init (fun _ => 0)) p = 0) := by
  have hap : ∀ p, GradientCorrectionPreStep_loop_all 2 testKernelClosed exA [exB]
      (preStep_init (fun _ => 0)) p = gcContrib 2 testKernelClosed exA exB p := by
    intro p
    rw [GradientCorrectionPreStep_loop_all_apply 2 (by norm_num), preStep_init_apply]
    simp
  refine ⟨?_, ?_, ?_, ?_, ?_⟩
  · rw [hap, gcContrib, testClosed_grad_ex, norm3_neg_xij_ex, pairR_ex]
    norm_num [particleVolume_exB, pairXij_ex0]
  · rw [hap, gcContrib, testClosed_grad_ex, norm3_neg_xij_ex, pairR_ex]
    norm_num [particleVolume_exB, pairXij_ex1]
  · rw [hap, gcContrib, testClosed_grad_ex, norm3_neg_xij_ex, pairR_ex]
    norm_num [particleVolume_exB, pairXij_ex0, pairXij_ex1]
  · rw [hap, gcContrib, testClosed_grad_ex, norm3_neg_xij_ex, pairR_ex]
    norm_num [particleVolume_exB, pairXij_ex0, pairXij_ex1]
  · intro p hp
    rw [hap, gcContrib, testClosed_grad_ex, norm3_neg_xij_ex, pairR_ex]
    rcases hp with rfl | rfl | rfl | rfl | rfl <;> norm_num

/-- Concrete instance of the per-neighbor contribution: the example pair at
unit distance with a unit-norm constant gradient adds exactly 1 to entry 0. -/
theorem C2_moment_matrix_contribution_witness :
    (2 ≤ 3) ∧ (1.0e-12 ≤ pairR exA exB) ∧
    GradientCorrectionPreStep_body 2 constKernel exA exB (fun _ => 0) 0 = 1 := by
  have hr : 1.0e-12 ≤ pairR exA exB := by
    rw [pairR_ex]
    norm_num
  refine ⟨by norm_num, hr, ?_⟩
  have h := (C2_moment_matrix_contribution 2 (by norm_num) constKernel exA exB
    (fun _ => 0)).2.1 hr 0 (by norm_num) 0 (by norm_num)
  norm_num at h
  rw [h]
  have hg : norm3 (constKernel.gradient (pairXij exA exB) (pairR exA exB)
      (pairHij exA exB)) = 1 := by
    rw [norm3, Real.sqrt_eq_one]
    simp [constKernel]
  rw [hg, particleVolume_exB, pairXij_ex0, pairR_ex]
  norm_num

/-- Concrete instance of the guarded-division theorem: one unit-density
neighbor with nonzero den, where the checked mixed evaluation succeeds. -/
theorem C4_division_guards_witness :
    ((∀ s ∈ [exB], s.rho ≠ 0) ∧ (mixedPass1 2 constKernel exA [exB]).1 ≠ 0) ∧
    Mixed_loop_all_checked 2 constKernel exA [exB] (fun _ => 0) =
      some (MixedKernelCorrectionPreStep_loop_all 2 constKernel exA [exB] (fun _ => 0)) := by
  have hrho : ∀ s ∈ [exB], s.rho ≠ 0 := by
    intro s hs
    rw [List.mem_singleton] at hs
    subst hs
    simp only [exB]
    norm_num
  have hden : (mixedPass1 2 constKernel exA [exB]).1 ≠ 0 := by
    simp [mixedPass1, mixedPass1_step, constKernel, particleVolume, exB]
    norm_num
  exact ⟨⟨hrho, hden⟩,
    (C4_division_guards 2 constKernel exA [exB] (fun _ => 0) hrho (Or.inr hden)).2⟩

/-- Concrete instance of dimensional zeroing: with dim = 2 the assembled
entry 5 (row 1, column 2) is exactly zero. -/
theorem C6_dimensional_zeroing_witness :
    (2 ≤ 3 ∧ 5 < 9 ∧ (2 ≤ 5 / 3 ∨ 2 ≤ 5 % 3)) ∧
    GradientCorrectionPreStep_loop_all 2 constKernel exA [exB]
      (preStep_init (fun _ => 0)) 5 = 0 ∧
    (MixedKernelCorrectionPreStep_loop_all 2 constKernel exA [exB]
      (preStep_init (fun _ => 0))).1 5 = 0 :=
  ⟨⟨by norm_num, by norm_num, Or.inr (by norm_num)⟩,
   (C6_dimensional_zeroing 2 (by norm_num) constKernel exA [exB] (fun _ => 0) 5
     (by norm_num) (Or.inr (by norm_num))).1,
   (C6_dimensional_zeroing 2 (by norm_num) constKernel exA [exB] (fun _ => 0) 5
     (by norm_num) (Or.inr (by norm_num))).2⟩

/-- Concrete instance of permutation invariance on a two-element neighbor
list and its swap. -/
theorem C7_neighbor_permutation_witness :
    ([exA, exB].Perm [exB, exA]) ∧
    KernelCorrection_run constKernel exA [exA, exB] =
      KernelCorrection_run constKernel exA [exB, exA] ∧
    GradientCorrectionPreStep_loop_all 2 constKernel exA [exA, exB] (fun _ => 0) 0 =
      GradientCorrectionPreStep_loop_all 2 constKernel exA [exB, exA] (fun _ => 0) 0 := by
  have hp : [exA, exB].Perm [exB, exA] := List.Perm.swap exB exA []
  have h := C7_neighbor_permutation 2 (by norm_num) constKernel exA [exA, exB]
    [exB, exA] hp (fun _ => 0)
  exact ⟨hp, h.1, h.2 0⟩
